import Mathlib

/-!
Verification of the pcigale model-generation pipeline against its
natural-language specification.  Python functions are embedded shallowly:
dictionaries become insertion-ordered association lists, numpy arrays become
lists of rationals (floating-point values are abstracted; only control flow,
lengths and equality matter for the properties below), exceptions become an
explicit `Except` error type, and `print` output becomes an explicit list of
emitted lines.
-/

set_option autoImplicit false

namespace Cigale

/-- Python values occurring in module parameter dictionaries: strings, numbers
(only equality matters here, so they are carried as integers) and lists of
strings. -/
inductive PValue where
  | str (s : String)
  | int (n : Int)
  | list (l : List String)
  deriving DecidableEq

/-- One entry of a module's `parameter_list`: the Python tuple
`(variable type, description, default value)`, a `None` default being `none`. -/
structure ParamSpec where
  ptype : String
  descr : String
  default : Option PValue
  deriving DecidableEq

/-- The Python exception values raised by the embedded functions.  An exception
whose message is built by joining a Python `set` (whose iteration order is not
part of the language contract) carries the underlying key lists instead of a
rendered string. -/
inductive PyError where
  | keyErrorParams (missing unexpected : List String)
  | keyErrorColumn (column : String)
  | valueError (msg : String)
  | standardError (msg : String)
  | importError (moduleName : String)
  | databaseLookupError (msg : String)
  | exception (msg : String)
  deriving DecidableEq

deriving instance DecidableEq for Except

/-- A Python dictionary keyed by strings, as an insertion-ordered association
list (CPython dictionaries preserve insertion order). -/
abbrev Dict (α : Type) := List (String × α)

/-- Python `d[k]` / `k in d`: the value at the first occurrence of key `k`. -/
def lookupKey {α : Type} (k : String) : Dict α → Option α
  | [] => none
  | kv :: rest => if kv.1 = k then some kv.2 else lookupKey k rest

/-- The key list of a dictionary, in insertion order. -/
def keys {α : Type} (d : Dict α) : List String :=
  d.map Prod.fst

/-- A module's parameter dictionary (name to value). -/
abbrev ParamDict := Dict PValue

/-- Python `set(xs) == set(ys)` on key lists. -/
def keySetEqb (xs ys : List String) : Bool :=
  (xs.all fun k => decide (k ∈ ys)) && (ys.all fun k => decide (k ∈ xs))

/-- The first loop of `complete_parameters`
(src/pcigale/sed/modules/common.py, lines 41-44): every schema parameter with
a non-`None` default that is absent from the supplied dictionary is appended
with its default value. -/
def fillDefaults (given_parameters : ParamDict) (parameter_list : Dict ParamSpec) :
    ParamDict :=
  parameter_list.foldl
    (fun g kv =>
      match lookupKey kv.1 g, kv.2.default with
      | none, some d => g ++ [(kv.1, d)]
      | _, _ => g)
    given_parameters

/-- Embeds `complete_parameters` (src/pcigale/sed/modules/common.py, lines
11-66).  `AnalysisModule.process` (src/pcigale/analysis_modules/__init__.py,
lines 108-133) inlines the same resolution logic for analysis-module
parameters.  After filling defaults, a key-set mismatch raises a `KeyError`
carrying the missing keys (schema keys absent from the supplied set) and the
unexpected keys (supplied keys absent from the schema), from which the Python
message is rendered. -/
def complete_parameters (given_parameters : ParamDict)
    (parameter_list : Dict ParamSpec) : Except PyError ParamDict :=
  let gp := fillDefaults given_parameters parameter_list
  if keySetEqb (keys gp) (keys parameter_list) then
    .ok gp
  else
    .error (.keyErrorParams
      ((keys parameter_list).filter fun k => decide (k ∉ keys gp))
      ((keys gp).filter fun k => decide (k ∉ keys parameter_list)))

/-- The schema of the specification's parameter-resolution example:
`{a: default 1, b: no default}`. -/
def exSchema : Dict ParamSpec :=
  [("a", ⟨"integer", "", some (.int 1)⟩), ("b", ⟨"integer", "", none⟩)]

/-- Caller input `{b: 5}` of the example. -/
def exGiven1 : ParamDict := [("b", .int 5)]

/-- Caller input `{a: 2, b: 5, c: 9}` of the example. -/
def exGiven2 : ParamDict := [("a", .int 2), ("b", .int 5), ("c", .int 9)]

/-- Caller input `{a: 2}` of the example. -/
def exGiven3 : ParamDict := [("a", .int 2)]

/-- The instance returned by `get_module`: which registered module class was
imported (`moduleKey`) and the full, possibly dotted, name handed to its
constructor (`name`). -/
structure SedModuleInstance where
  name : String
  moduleKey : String
  deriving DecidableEq

/-- Python `name.split('.')[0]`: the part of `name` before the first dot, or
all of `name` when it has no dot. -/
def dotHead (name : String) : String :=
  (name.toList.takeWhile fun c => decide (c ≠ '.')).asString

/-- Embeds `get_module` (src/pcigale/sed/modules/common.py, lines 159-184).
The dynamic `from . import <module_name>` is modelled as membership in the
registry of importable sibling module names; an unknown module prints a
diagnostic line and the `ImportError` is re-raised.  Returns the result
together with the printed lines. -/
def get_module (registry : List String) (name : String) :
    Except PyError SedModuleInstance × List String :=
  let module_name := dotHead name
  if decide (module_name ∈ registry) then
    (.ok { name := name, moduleKey := module_name }, [])
  else
    (.error (.importError module_name),
     ["Module " ++ module_name ++ " does not exists!"])

/-- A numpy float array; the floating-point values are abstracted as
rationals, since none of the verified properties depend on float
arithmetic. -/
abbrev FloatArr := List Rat

/-- Embeds `adjust_errors` (src/pcigale/analysis_modules/__init__.py, lines
162-205) at the level of array values, with `np.sqrt` abstracted as `sqrtFn`.
The masked assignment `error[error < tolerance] = default_error * flux[...]`
acts on the copy made by `np.copy` (line 197), and
`np.sqrt(np.square(error) + np.square(flux * systematic_deviation))` builds
the returned array. -/
def adjust_errors (sqrtFn : Rat → Rat) (flux error : FloatArr)
    (tolerance default_error systematic_deviation : Rat) :
    Except PyError FloatArr :=
  if flux.length ≠ error.length then
    .error (.valueError
      "The flux and error arrays must have the same length.")
  else
    let ecopy := error
    let e1 := (flux.zip ecopy).map
      fun fe => if fe.2 < tolerance then default_error * fe.1 else fe.2
    let e2 := (flux.zip e1).map
      fun fe => sqrtFn (fe.2 * fe.2 +
        (fe.1 * systematic_deviation) * (fe.1 * systematic_deviation))
    .ok e2

/-- A store of numpy arrays identified by reference ids. -/
abbrev ArrStore := Nat → FloatArr

/-- Reference-level wrapper around `adjust_errors`: the caller's arrays live
in a store, and `np.copy` allocates the fresh id `freshId`; every mutation
acts on that copy, so the entries at `fluxId` and `errId` are never
written. -/
def adjust_errors_store (sqrtFn : Rat → Rat) (store : ArrStore)
    (fluxId errId freshId : Nat)
    (tolerance default_error systematic_deviation : Rat) :
    ArrStore × Except PyError Nat :=
  match adjust_errors sqrtFn (store fluxId) (store errId)
      tolerance default_error systematic_deviation with
  | .error e => (store, .error e)
  | .ok res => (fun i => if i = freshId then res else store i, .ok freshId)

/-- A file system: file names to contents, `none` meaning no such file. -/
abbrev FileSys := String → Option String

/-- Python `os.path.isfile`. -/
def isfile (fs : FileSys) (name : String) : Bool :=
  (fs name).isSome

/-- POSIX `os.rename`: the target is replaced when it already exists. -/
def os_rename (fs : FileSys) (src dst : String) : FileSys :=
  fun n => if n = dst then fs src else if n = src then none else fs n

/-- `astropy.table.Table.write`: create or overwrite `name`. -/
def table_write (fs : FileSys) (name content : String) : FileSys :=
  fun n => if n = name then some content else fs n

/-- Embeds the file effects of `SaveFluxes.process`
(src/pcigale/analysis_modules/savefluxes.py, lines 121-131 and 159-161):
`ts` stands for `datetime.now().strftime("%Y%m%d%H%M")` and `table` for the
rendered output table.  When a file named `out_file` exists it is renamed to
`ts ++ "_" ++ out_file`, and the new table is then written to `out_file`. -/
def savefluxes_file_effects (fs : FileSys) (ts out_file table : String) :
    FileSys :=
  let fs1 := if isfile fs out_file then
      os_rename fs out_file (ts ++ "_" ++ out_file)
    else fs
  table_write fs1 out_file table

/-- A file system holding the output file and, at the very name the backup
rename targets, an unrelated pre-existing file. -/
def clashFS : FileSys := fun n =>
  if n = "computed_fluxes.xml" then some "old run"
  else if n = "202306151200_computed_fluxes.xml" then some "precious backup"
  else none

/-- Identifying keys of a THEMIS model row; the source compares these
float-valued columns only for equality, so they are carried as rationals. -/
structure ThemisKey where
  qhac : Rat
  umin : Rat
  umax : Rat
  alpha : Rat
  deriving DecidableEq

/-- A row of the `THEMIS_models` table: the identifying keys and the pickled
wave and luminosity arrays. -/
structure ThemisEntry where
  key : ThemisKey
  wave : FloatArr
  lumin : FloatArr
  deriving DecidableEq

/-- The message of the `DatabaseLookupError` raised by `Database.get_themis`,
surfacing all four identifying key values. -/
def themisLookupMessage (k : ThemisKey) : String :=
  "The THEMIS model for qhac <" ++ toString k.qhac ++ ">, umin <" ++
    toString k.umin ++ ">, umax <" ++ toString k.umax ++ ">, and alpha <" ++
    toString k.alpha ++ "> is not in the database."

/-- Embeds `Database.get_themis` (src/pcigale/data/__init__.py, lines
151-190): the first row matching all four keys, or a `DatabaseLookupError`
naming the four key values. -/
def get_themis (store : List ThemisEntry) (qhac umin umax alpha : Rat) :
    Except PyError ThemisEntry :=
  match store.find? (fun e => decide (e.key = ⟨qhac, umin, umax, alpha⟩)) with
  | some e => .ok e
  | none => .error (.databaseLookupError
      (themisLookupMessage ⟨qhac, umin, umax, alpha⟩))

/-- A row of the `filters` table. -/
structure FilterEntry where
  name : String
  description : String
  trans_table : FloatArr
  pivot_wavelength : Rat
  deriving DecidableEq

/-- Embeds `Database.get_filter` (src/pcigale/data/__init__.py, lines
252-279): the first row with the given name, or a `DatabaseLookupError`
naming the filter. -/
def get_filter (store : List FilterEntry) (name : String) :
    Except PyError FilterEntry :=
  match store.find? (fun f => decide (f.name = name)) with
  | some f => .ok f
  | none => .error (.databaseLookupError
      ("The filter <" ++ name ++ "> is not in the database"))

/-- Outcome of reading one pickle file of a `SimpleDatabase` directory. -/
inductive FileRead where
  | absent
  | corrupt
  | entry (primarykeys data : Dict String)
  deriving DecidableEq

/-- A `SimpleDatabase` directory: pickle-file basenames to read outcomes.
`absent` models a key combination with no pickle file, `corrupt` a file whose
unpickling fails. -/
abbrev PickleDir := String → FileRead

/-- Stable insertion sort by key, modelling Python `sorted` on the items of a
dictionary (whose keys are unique, so key order decides). -/
def insertSorted (kv : String × String) : Dict String → Dict String
  | [] => [kv]
  | hd :: tl => if kv.1 ≤ hd.1 then kv :: hd :: tl else hd :: insertSorted kv tl

/-- `"_".join(f"{k}={v}" for k, v in sorted(primarykeys.items()))`
(src/pcigale/data/__init__.py, line 444). -/
def simpledb_basename (primarykeys : Dict String) : String :=
  String.intercalate "_"
    ((primarykeys.foldr insertSorted []).map fun kv => kv.1 ++ "=" ++ kv.2)

/-- The Python rendering of the primary-key dictionary interpolated into the
`SimpleDatabase.get` error message (literal braces written escaped). -/
def pyDictRepr (d : Dict String) : String :=
  "\x7b" ++ String.intercalate ", " (d.map fun kv => kv.1 ++ ": " ++ kv.2) ++
    "\x7d"

/-- The message of the generic `Exception` raised by `SimpleDatabase.get`. -/
def simpledbErrorMessage (primarykeys : Dict String) : String :=
  "Cannot read model " ++ pyDictRepr primarykeys ++
    ". Either the parameters were passed incorrectly or the database has " ++
    "not been built correctly."

/-- Embeds `SimpleDatabase.get` (src/pcigale/data/__init__.py, lines
427-454): the pickle file named from the sorted primary keys is read, and ANY
failure — the file being absent for these keys as well as the file being
corrupted — is caught by the bare `except:` and re-raised as one generic
`Exception`. -/
def SimpleDatabase_get (dir : PickleDir) (primarykeys : Dict String) :
    Except PyError (Dict String × Dict String) :=
  match dir (simpledb_basename primarykeys) with
  | .entry pk data => .ok (pk, data)
  | _ => .error (.exception (simpledbErrorMessage primarykeys))

/-- An astropy observation table: ordered named columns. -/
abbrev ObsTable := Dict FloatArr

/-- `obs_table.colnames`. -/
def colnames (t : ObsTable) : List String := keys t

/-- `len(obs_table)`: the number of rows. -/
def nrows (t : ObsTable) : Nat :=
  match t with
  | [] => 0
  | c :: _ => c.2.length

/-- `obs_table[name]`: a missing column raises a `KeyError`. -/
def getCol (t : ObsTable) (name : String) : Except PyError FloatArr :=
  match lookupKey name t with
  | some c => .ok c
  | none => .error (.keyErrorColumn name)

/-- `obs_table[name] = data`: replace the column in place, or append a new
column when the name is absent. -/
def setCol (t : ObsTable) (name : String) (data : FloatArr) : ObsTable :=
  if (lookupKey name t).isSome then
    t.map fun kv => if kv.1 = name then (name, data) else kv
  else t ++ [(name, data)]

/-- `obs_table.add_column(col, index=i)`: insert the column at position
`i`. -/
def addColumnAt (t : ObsTable) (i : Nat) (name : String) (data : FloatArr) :
    ObsTable :=
  t.take i ++ [(name, data)] ++ t.drop i

/-- One iteration of the `for name in filter_list` loop of
`complete_obs_table` (src/pcigale/analysis_modules/__init__.py, lines
246-266). -/
def complete_obs_table_step (sqrtFn : Rat → Rat) (used_columns : List String)
    (tolerance default_error systematic_deviation : Rat)
    (t : ObsTable) (name : String) : Except PyError ObsTable := do
  if decide (name ∉ colnames t) then
    throw (.standardError ("The filter <" ++ name ++
      "> (at least) is not present in the observation table."))
  let name_err := name ++ "_err"
  let t1 :=
    if decide (name_err ∉ used_columns) then
      if decide (name_err ∉ colnames t) then
        addColumnAt t ((colnames t).indexOf name + 1) name_err
          (List.replicate (nrows t) 0)
      else
        setCol t name_err (List.replicate (nrows t) 0)
    else t
  let fluxCol ← getCol t1 name
  let errCol ← getCol t1 name_err
  let adjusted ← adjust_errors sqrtFn fluxCol errCol
    tolerance default_error systematic_deviation
  pure (setCol t1 name_err adjusted)

/-- Embeds `complete_obs_table` (src/pcigale/analysis_modules/__init__.py,
lines 208-267): the per-filter loop threaded over the table.  The source has
no warning channel; the deferred `TODO` comment (lines 244-245) is the only
trace of the absent-error-column case. -/
def complete_obs_table (sqrtFn : Rat → Rat) (obs_table : ObsTable)
    (used_columns : List String) (filter_list : List String)
    (tolerance default_error systematic_deviation : Rat) :
    Except PyError ObsTable :=
  filter_list.foldlM
    (complete_obs_table_step sqrtFn used_columns tolerance default_error
      systematic_deviation)
    obs_table

/-- An observation table whose `FUV_err` column is named in the used column
list but absent from the table itself. -/
def c7Table : ObsTable := [("FUV", [1])]

/-- A second such table, used to witness the amended C7 statement. -/
def c7Table2 : ObsTable := [("NUV", [3, 4])]

/-- Association-list lookup for arbitrary decidable keys (first match), used
for the warehouse cache. -/
def alookup {κ α : Type} [DecidableEq κ] (k : κ) : List (κ × α) → Option α
  | [] => none
  | kv :: rest => if kv.1 = k then some kv.2 else alookup k rest

/-- A pipeline stage: a module name together with its parameter
dictionary. -/
structure Stage where
  module : String
  params : ParamDict
  deriving DecidableEq

/-- A pipeline: the ordered stages of one grid point. -/
abbrev Pipeline := List Stage

/-- A warehouse cache key: the pipeline prefix applied so far. -/
abbrev CacheKey := List Stage

/-- One worker's warehouse cache: prefix keys to the SED snapshot after that
prefix. -/
abbrev Cache (SED : Type) := List (CacheKey × SED)

/-- The pipeline handed to the warehouse by `_worker_sed`: the module names
zipped with the per-module parameter dictionaries. -/
def mkPipeline (modules : List String) (parameters : List ParamDict) :
    Pipeline :=
  (modules.zip parameters).map fun mp => ⟨mp.1, mp.2⟩

/-- Modelled from the spec: the walk of `SedWarehouse.get_sed` — the
warehouse module is not among the repository files; section 4.4 of the spec
describes its `get_or_build`.  The pipeline is walked stage by stage, keyed
by the prefix up to and including each stage; a cache hit advances to the
cached snapshot without invoking the module's `process`, and a miss applies
`process` (the pure `(SED, parameters) -> SED` transformer of the Module
Contract) to the previous snapshot and stores the result under the new key.
Returns the final SED, the cache afterwards, and the keys whose `process`
invocation actually ran, in order. -/
def get_sed_walk {SED : Type} (process : Stage → SED → SED)
    (cache : Cache SED) (pre : CacheKey) (sed : SED) :
    List Stage → SED × Cache SED × List CacheKey
  | [] => (sed, cache, [])
  | st :: rest =>
    match alookup (pre ++ [st]) cache with
    | some snap => get_sed_walk process cache (pre ++ [st]) snap rest
    | none =>
      let snap := process st sed
      let out := get_sed_walk process ((pre ++ [st], snap) :: cache)
        (pre ++ [st]) snap rest
      (out.1, out.2.1, (pre ++ [st]) :: out.2.2)

/-- Modelled from the spec: `SedWarehouse.get_sed`, starting from the empty
prefix and a freshly-created SED. -/
def get_sed {SED : Type} (process : Stage → SED → SED) (newSED : SED)
    (w : Cache SED) (modules : List String) (parameters : List ParamDict) :
    SED × Cache SED × List CacheKey :=
  get_sed_walk process w [] newSED (mkPipeline modules parameters)

/-- Modelled from the spec: `SedWarehouse.partial_clear_cache` — removes
exactly the entries whose prefix length is at least `changed` and preserves
all entries with a shorter prefix (sections 4.4 and 8 of the spec). -/
def partial_clear_cache {SED : Type} (w : Cache SED) (changed : Nat) :
    Cache SED :=
  w.filter fun kv => decide (kv.1.length < changed)

/-- The uncached meaning of a pipeline: every stage's `process` applied in
order to a fresh SED. -/
def evalPipeline {SED : Type} (process : Stage → SED → SED) (newSED : SED)
    (p : Pipeline) : SED :=
  p.foldl (fun s st => process st s) newSED

/-- A cache is valid when every stored snapshot is the uncached meaning of
its key. -/
def ValidCache {SED : Type} (process : Stage → SED → SED) (newSED : SED)
    (c : Cache SED) : Prop :=
  ∀ kv ∈ c, kv.2 = evalPipeline process newSED kv.1

/-- A sequence of `get_sed` requests against one worker's cache, with the
`process`-invocation logs concatenated in request order. -/
def run_requests {SED : Type} (process : Stage → SED → SED) (newSED : SED)
    (w : Cache SED) :
    List (List String × List ParamDict) → Cache SED × List CacheKey
  | [] => (w, [])
  | mp :: rest =>
    let out := get_sed process newSED w mp.1 mp.2
    let out2 := run_requests process newSED out.2.1 rest
    (out2.1, out.2.2 ++ out2.2)

/-- The events of one `_worker_sed` call, in program order. -/
inductive WorkerEvent where
  | sedBuilt
  | cacheCleared (changed : Nat)
  | rowProduced
  deriving DecidableEq

/-- A cell of an output row: a parameter value (list values already joined)
or a computed flux. -/
inductive Cell where
  | val (v : PValue)
  | flux (q : Rat)
  deriving DecidableEq

/-- One output row. -/
abbrev Row := List Cell

/-- The list-joining of `_worker_sed` (savefluxes.py, lines 54-58):
`".".join(value)` replaces a list-valued parameter by one string. -/
def joinIfList : PValue → PValue
  | .list l => .str (String.intercalate "." l)
  | v => v

/-- A filter as `_worker_sed` uses it; `compute_fnu` receives its
transmission table and effective wavelength, both abstracted behind the
filter value. -/
structure PFilter where
  name : String
  deriving DecidableEq

/-- Embeds `_worker_sed` (src/pcigale/analysis_modules/savefluxes.py, lines
29-65), over the spec-modelled warehouse.  In program order: the SED is
obtained from the warehouse, `partial_clear_cache(changed)` prunes the
cache, and then the row is assembled from the parameter values (module by
module, each module's values in dictionary order, lists joined) followed by
one `compute_fnu` flux per filter of the already-built SED.  Returns the
row, the worker's cache afterwards, and the call's events in program
order. -/
def worker_sed {SED : Type} (process : Stage → SED → SED) (newSED : SED)
    (compute_fnu : SED → PFilter → Rat) (warehouse : Cache SED)
    (filters : List PFilter) (modules : List String)
    (parameters : List ParamDict) (changed : Nat) :
    Row × Cache SED × List WorkerEvent :=
  let out := get_sed process newSED warehouse modules parameters
  let w2 := partial_clear_cache out.2.1 changed
  let row := parameters.foldl
    (fun r mp => r ++ mp.map fun kv => Cell.val (joinIfList kv.2)) []
  (row ++ filters.map fun f => Cell.flux (compute_fnu out.1 f), w2,
   [.sedBuilt, .cacheCleared changed, .rowProduced])

/-- Claim C3's ordering property on a worker's event trace: the
`partial_clear_cache` call with the grid point's changed-at index happens
only after the output row has been produced. -/
def ClearAfterRow (tr : List WorkerEvent) (changed : Nat) : Prop :=
  ∀ i j, tr.get? i = some (.cacheCleared changed) →
    tr.get? j = some .rowProduced → j < i

/-- Modelled from the spec: `find_changed_parameters`
(`pcigale.analysis_modules.utils` is not among the repository files;
sections 4.3 and 8 of the spec describe the Changed-Parameter Detector).
The index of the first stage whose parameter set differs between two
consecutive grid points. -/
def firstDiff : List ParamDict → List ParamDict → Nat
  | p :: ps, c :: cs => if p = c then firstDiff ps cs + 1 else 0
  | _, _ => 0

/-- Modelled from the spec: the changed-at index of every grid point — the
very first grid point is fully changed and gets index 0. -/
def find_changed_parameters (ps : List (List ParamDict)) : List Nat :=
  match ps with
  | [] => []
  | _ :: _ => 0 :: ((ps.zip ps.tail).map fun pc => firstDiff pc.1 pc.2)

/-- The grid indices routed to worker `wid` under the dispatch `assign`,
processed by that worker in submission order. -/
def worker_tasks (assign : Nat → Nat) (n wid : Nat) : List Nat :=
  (List.range n).filter fun i => decide (assign i = wid)

/-- One worker's life: its share of the grid processed in order, threading
the worker's private cache from one grid point to the next. -/
def run_worker {SED : Type} (process : Stage → SED → SED) (newSED : SED)
    (compute_fnu : SED → PFilter → Rat) (filters : List PFilter)
    (modules : List String) (w : Cache SED) :
    List (List ParamDict × Nat) → List Row
  | [] => []
  | t :: rest =>
    let out := worker_sed process newSED compute_fnu w filters modules t.1 t.2
    out.1 :: run_worker process newSED compute_fnu filters modules out.2.1 rest

/-- Modelled from the spec: the pool evaluation of `SaveFluxes.process`
(src/pcigale/analysis_modules/savefluxes.py, lines 148-157).
`mp.Pool.starmap` distributes the grid points over forked workers — each
fork starts from a copy of the parent's freshly-created, empty warehouse —
and collects the results in input order regardless of dispatch, so the
result at position `i` is the row the assigned worker computed for grid
point `i`. -/
def pool_rows {SED : Type} (process : Stage → SED → SED) (newSED : SED)
    (compute_fnu : SED → PFilter → Rat) (filters : List PFilter)
    (modules : List String) (points : List (List ParamDict))
    (changed : List Nat) (assign : Nat → Nat) : List Row :=
  (List.range points.length).map fun i =>
    let tasks := worker_tasks assign points.length (assign i)
    let rows := run_worker process newSED compute_fnu filters modules []
      (tasks.map fun j => (points.getD j [], changed.getD j 0))
    rows.getD (tasks.indexOf i) []

/-- The cache-independent row of one grid point: its joined parameter values
followed by the fluxes of the pipeline's uncached meaning. -/
def pureRow {SED : Type} (process : Stage → SED → SED) (newSED : SED)
    (compute_fnu : SED → PFilter → Rat) (filters : List PFilter)
    (modules : List String) (parameters : List ParamDict) : Row :=
  (parameters.map fun mp => mp.map fun kv => Cell.val (joinIfList kv.2)).flatten
    ++ filters.map fun f =>
      Cell.flux (compute_fnu (evalPipeline process newSED
        (mkPipeline modules parameters)) f)

/-- Embeds the output-column construction of `SaveFluxes.process`
(src/pcigale/analysis_modules/savefluxes.py, lines 139-146): for each
(module, first-grid-point parameter dictionary) pair one dotted
`module.parameter` name per parameter, followed by the filter names. -/
def out_columns (creation_modules : List String)
    (first_params : List ParamDict) (filter_names : List String) :
    List String :=
  ((creation_modules.zip first_params).foldl
    (fun cols mp => cols ++ mp.2.map fun kv => mp.1 ++ "." ++ kv.1) []) ++
    filter_names

/- ------------------------------------------------------------------ -/
/- Theorems -/
/- ------------------------------------------------------------------ -/

theorem lookupKey_isSome_iff {α : Type} (d : Dict α) (k : String) :
    (lookupKey k d).isSome = true ↔ k ∈ keys d := by
  induction d with
  | nil => simp [lookupKey, keys]
  | cons hd tl ih =>
    simp only [keys, List.map_cons, List.mem_cons]
    by_cases h : hd.1 = k
    · simp [lookupKey, h]
    · simp only [lookupKey, if_neg h]
      constructor
      · intro hs
        exact Or.inr (ih.mp hs)
      · rintro (hk | hk)
        · exact absurd hk.symm h
        · exact ih.mpr hk

theorem lookupKey_append {α : Type} (a b : Dict α) (k : String) :
    lookupKey k (a ++ b) =
      match lookupKey k a with
      | some v => some v
      | none => lookupKey k b := by
  induction a with
  | nil => simp [lookupKey]
  | cons hd tl ih =>
    by_cases h : hd.1 = k
    · simp [lookupKey, h]
    · simp [lookupKey, h, ih]

theorem lookupKey_append_some {α : Type} {a : Dict α} (b : Dict α) {k : String}
    {v : α} (h : lookupKey k a = some v) : lookupKey k (a ++ b) = some v := by
  rw [lookupKey_append, h]

theorem lookupKey_append_none {α : Type} {a : Dict α} (b : Dict α) {k : String}
    (h : lookupKey k a = none) : lookupKey k (a ++ b) = lookupKey k b := by
  rw [lookupKey_append, h]

theorem keySetEqb_iff (xs ys : List String) :
    keySetEqb xs ys = true ↔ (∀ k, k ∈ xs ↔ k ∈ ys) := by
  simp only [keySetEqb, Bool.and_eq_true, List.all_eq_true, decide_eq_true_eq]
  constructor
  · rintro ⟨h₁, h₂⟩ k
    exact ⟨fun hk => h₁ k hk, fun hk => h₂ k hk⟩
  · intro h
    exact ⟨fun k hk => (h k).mp hk, fun k hk => (h k).mpr hk⟩

theorem fillDefaults_preserves (parameter_list : Dict ParamSpec) :
    ∀ (g : ParamDict) (k : String) (v : PValue), lookupKey k g = some v →
      lookupKey k (fillDefaults g parameter_list) = some v := by
  induction parameter_list with
  | nil => intro g k v h; simpa [fillDefaults] using h
  | cons hd tl ih =>
    intro g k v h
    rcases h1 : lookupKey hd.1 g with _ | w
    · rcases h2 : hd.2.default with _ | d
      · have : fillDefaults g (hd :: tl) = fillDefaults g tl := by
          simp [fillDefaults, h1, h2]
        rw [this]; exact ih g k v h
      · have : fillDefaults g (hd :: tl) = fillDefaults (g ++ [(hd.1, d)]) tl := by
          simp [fillDefaults, h1, h2]
        rw [this]
        exact ih _ k v (lookupKey_append_some _ h)
    · have : fillDefaults g (hd :: tl) = fillDefaults g tl := by
        simp [fillDefaults, h1]
      rw [this]; exact ih g k v h

theorem fillDefaults_adds (parameter_list : Dict ParamSpec) :
    ∀ (g : ParamDict) (k : String) (s : ParamSpec) (d : PValue),
      (keys parameter_list).Nodup → (k, s) ∈ parameter_list →
      s.default = some d → lookupKey k g = none →
      lookupKey k (fillDefaults g parameter_list) = some d := by
  induction parameter_list with
  | nil => intro g k s d _ hmem; simp at hmem
  | cons hd tl ih =>
    intro g k s d hnd hmem hdef habs
    have hnd' : hd.1 ∉ keys tl ∧ (keys tl).Nodup := by
      simpa [keys] using hnd
    rcases List.mem_cons.mp hmem with heq | htl
    · subst heq
      have : fillDefaults g ((k, s) :: tl) = fillDefaults (g ++ [(k, d)]) tl := by
        simp [fillDefaults, habs, hdef]
      rw [this]
      refine fillDefaults_preserves tl _ k d ?_
      rw [lookupKey_append_none _ habs]
      simp [lookupKey]
    · have hne : hd.1 ≠ k := by
        intro hkk
        exact hnd'.1 (hkk ▸ (by simpa [keys] using List.mem_map_of_mem Prod.fst htl))
      rcases h1 : lookupKey hd.1 g with _ | w
      · rcases h2 : hd.2.default with _ | d'
        · have : fillDefaults g (hd :: tl) = fillDefaults g tl := by
            simp [fillDefaults, h1, h2]
          rw [this]; exact ih g k s d hnd'.2 htl hdef habs
        · have : fillDefaults g (hd :: tl) = fillDefaults (g ++ [(hd.1, d')]) tl := by
            simp [fillDefaults, h1, h2]
          rw [this]
          refine ih _ k s d hnd'.2 htl hdef ?_
          rw [lookupKey_append_none _ habs]
          simp [lookupKey, hne]
      · have : fillDefaults g (hd :: tl) = fillDefaults g tl := by
          simp [fillDefaults, h1]
        rw [this]; exact ih g k s d hnd'.2 htl hdef habs

/-- Claim C1: for every module parameter schema and caller-supplied parameter
set, every schema parameter with a non-null default that is absent from the
supplied set is first filled with its default; afterwards, if the supplied key
set does not exactly equal the schema's key set, resolution fails with a
`KeyError` naming both the missing and the unexpected keys, and otherwise the
resolved set is returned.  The specification's concrete examples (schema
`{a: default 1, b: no default}` with inputs `{b: 5}`, `{a: 2, b: 5, c: 9}` and
`{a: 2}`) are included as the final conjuncts. -/
theorem C1_complete_parameters
    (parameter_list : Dict ParamSpec) (given : ParamDict)
    (hnd : (keys parameter_list).Nodup) :
    (∀ k v, lookupKey k given = some v →
        lookupKey k (fillDefaults given parameter_list) = some v) ∧
    (∀ k s d, (k, s) ∈ parameter_list → s.default = some d →
        lookupKey k given = none →
        lookupKey k (fillDefaults given parameter_list) = some d) ∧
    ((∀ k, k ∈ keys (fillDefaults given parameter_list) ↔ k ∈ keys parameter_list) →
        complete_parameters given parameter_list =
          .ok (fillDefaults given parameter_list)) ∧
    (¬ (∀ k, k ∈ keys (fillDefaults given parameter_list) ↔ k ∈ keys parameter_list) →
      ∃ miss unexp,
        complete_parameters given parameter_list =
          .error (.keyErrorParams miss unexp) ∧
        (∀ k, k ∈ miss ↔ k ∈ keys parameter_list ∧
            k ∉ keys (fillDefaults given parameter_list)) ∧
        (∀ k, k ∈ unexp ↔ k ∈ keys (fillDefaults given parameter_list) ∧
            k ∉ keys parameter_list)) ∧
    complete_parameters exGiven1 exSchema =
      .ok [("b", PValue.int 5), ("a", PValue.int 1)] ∧
    complete_parameters exGiven2 exSchema =
      .error (.keyErrorParams [] ["c"]) ∧
    complete_parameters exGiven3 exSchema =
      .error (.keyErrorParams ["b"] []) := by
  refine ⟨fillDefaults_preserves parameter_list given,
    fun k s d hm hd ha => fillDefaults_adds parameter_list given k s d hnd hm hd ha,
    ?_, ?_, by decide, by decide, by decide⟩
  · intro h
    have heq : keySetEqb (keys (fillDefaults given parameter_list))
        (keys parameter_list) = true := (keySetEqb_iff _ _).mpr h
    simp [complete_parameters, heq]
  · intro h
    have heq : keySetEqb (keys (fillDefaults given parameter_list))
        (keys parameter_list) = false := by
      rcases hb : keySetEqb (keys (fillDefaults given parameter_list))
          (keys parameter_list) with _ | _
      · rfl
      · exact absurd ((keySetEqb_iff _ _).mp hb) h
    refine ⟨(keys parameter_list).filter
        (fun k => decide (k ∉ keys (fillDefaults given parameter_list))),
      (keys (fillDefaults given parameter_list)).filter
        (fun k => decide (k ∉ keys parameter_list)), ?_, ?_, ?_⟩
    · simp [complete_parameters, heq]
    · intro k; simp [List.mem_filter]
    · intro k; simp [List.mem_filter]

/-- Witness for C1 at the specification's example schema. -/
theorem C1_complete_parameters_witness :
    (keys exSchema).Nodup ∧
    complete_parameters exGiven1 exSchema =
      .ok [("b", PValue.int 5), ("a", PValue.int 1)] :=
  ⟨by decide, (C1_complete_parameters exSchema exGiven1 (by decide)).2.2.2.2.1⟩

/-- Claim C10: `get_module` resolves the module to load using only the part
of the requested name before the first dot (so `dh2002.1` loads module
`dh2002`), passes the full dotted string through as the returned instance's
name, and for an unknown pre-dot part prints a diagnostic and raises
`ImportError`. -/
theorem C10_get_module (registry : List String) (name : String) :
    (dotHead name ∈ registry →
      get_module registry name =
        (.ok ⟨name, dotHead name⟩, [])) ∧
    (dotHead name ∉ registry →
      get_module registry name =
        (.error (.importError (dotHead name)),
         ["Module " ++ dotHead name ++ " does not exists!"])) ∧
    get_module ["dh2002", "loadfile"] "dh2002.1" =
      (.ok ⟨"dh2002.1", "dh2002"⟩, []) := by
  refine ⟨fun h => ?_, fun h => ?_, by decide⟩
  · simp [get_module, h]
  · simp [get_module, h]

/-- Witness for C10: looking up `dh2002.1` in a registry containing `dh2002`
returns the `dh2002` module instantiated under the full name `dh2002.1`. -/
theorem C10_get_module_witness :
    get_module ["dh2002"] "dh2002.1" =
      (.ok ⟨"dh2002.1", "dh2002"⟩, []) :=
  (C10_get_module ["dh2002"] "dh2002.1").1 (by decide)

/-- Claim C9: `adjust_errors` raises a `ValueError` exactly when the flux and
error arrays have different lengths; the caller's error array is never
modified (the function operates on the copy at `freshId`); and on success the
returned array has the same length as both inputs. -/
theorem C9_adjust_errors (sqrtFn : Rat → Rat) (flux error : FloatArr)
    (tol de sd : Rat) (store : ArrStore) (fluxId errId freshId : Nat) :
    ((∃ msg, adjust_errors sqrtFn flux error tol de sd =
        .error (.valueError msg)) ↔ flux.length ≠ error.length) ∧
    (∀ res, adjust_errors sqrtFn flux error tol de sd = .ok res →
        res.length = error.length ∧ res.length = flux.length) ∧
    (errId ≠ freshId →
      (adjust_errors_store sqrtFn store fluxId errId freshId tol de sd).1 errId
        = store errId) ∧
    (fluxId ≠ freshId →
      (adjust_errors_store sqrtFn store fluxId errId freshId tol de sd).1 fluxId
        = store fluxId) := by
  refine ⟨?_, ?_, ?_, ?_⟩
  · by_cases hl : flux.length = error.length
    · simp [adjust_errors, hl]
    · simp [adjust_errors, hl]
  · intro res hres
    by_cases hl : flux.length = error.length
    · have hc : ¬ flux.length ≠ error.length := by simp [hl]
      simp only [adjust_errors, if_neg hc] at hres
      injection hres with hres
      subst hres
      simp [List.length_zip, hl, Nat.min_self]
    · simp [adjust_errors, hl] at hres
  · intro hne
    rcases hres : adjust_errors sqrtFn (store fluxId) (store errId) tol de sd
        with e | res
    · simp [adjust_errors_store, hres]
    · simp [adjust_errors_store, hres, hne]
  · intro hne
    rcases hres : adjust_errors sqrtFn (store fluxId) (store errId) tol de sd
        with e | res
    · simp [adjust_errors_store, hres]
    · simp [adjust_errors_store, hres, hne]

/-- Witness for C9: on a one-element store the caller's error array is intact
after a successful call, and mismatched lengths give the `ValueError`. -/
theorem C9_adjust_errors_witness :
    ((∃ msg, adjust_errors (fun q => q) [(1 : Rat)] [1, 2] 0 0 0 =
        .error (.valueError msg)) ∧
      (adjust_errors_store (fun q => q) (fun _ => [(1 : Rat)]) 0 0 1 0 0 0).1 0
        = [(1 : Rat)]) := by
  have h := C9_adjust_errors (fun q => q) [(1 : Rat)] [1, 2] 0 0 0
    (fun _ => [(1 : Rat)]) 0 0 1
  exact ⟨h.1.mpr (by decide), h.2.2.1 (by decide)⟩

/-- Counterexample for C8: a pre-existing file sitting at the timestamped
backup name is overwritten by the rename, so a file other than the output
file is destroyed. -/
theorem C8_counterexample :
    clashFS "202306151200_computed_fluxes.xml" = some "precious backup" ∧
    savefluxes_file_effects clashFS "202306151200" "computed_fluxes.xml"
        "new table" "202306151200_computed_fluxes.xml" = some "old run" := by
  exact ⟨by decide, by decide⟩

/-- Claim C8 (amended): when the configured output file exists, it is first
renamed to the timestamp-prefixed backup name and only then is the new table
written under the original name; no file other than the output file and the
backup name is deleted or overwritten — but a pre-existing file at the backup
name itself is overwritten by the rename. -/
theorem C8_savefluxes_file_effects (fs : FileSys) (ts out_file table : String)
    (hex : isfile fs out_file = true) :
    savefluxes_file_effects fs ts out_file table (ts ++ "_" ++ out_file)
        = fs out_file ∧
    savefluxes_file_effects fs ts out_file table out_file = some table ∧
    (∀ n, n ≠ out_file → n ≠ ts ++ "_" ++ out_file →
      savefluxes_file_effects fs ts out_file table n = fs n) := by
  have hne : ts ++ "_" ++ out_file ≠ out_file := by
    intro h
    have hl := congrArg String.length h
    rw [String.length_append, String.length_append] at hl
    have h1 : "_".length = 1 := rfl
    omega
  refine ⟨?_, ?_, ?_⟩
  · simp [savefluxes_file_effects, table_write, os_rename, hex, hne]
  · simp [savefluxes_file_effects, table_write]
  · intro n hn1 hn2
    simp [savefluxes_file_effects, table_write, os_rename, hex, hn1, hn2]

/-- Witness for C8 (amended): with the clash file system the new table ends
up under the original output name. -/
theorem C8_savefluxes_file_effects_witness :
    savefluxes_file_effects clashFS "202306151200" "computed_fluxes.xml"
        "new table" "computed_fluxes.xml" = some "new table" :=
  (C8_savefluxes_file_effects clashFS "202306151200" "computed_fluxes.xml"
    "new table" (by decide)).2.1

/-- Counterexample for C6: for the `SimpleDatabase` backend, the failure
produced when the requested key combination is absent is the very same
exception value as the failure produced when the stored file is corrupted —
the lookup error is not distinct from the storage-corruption error. -/
theorem C6_counterexample :
    SimpleDatabase_get (fun _ => .absent) [("metallicity", "0.02")] =
      SimpleDatabase_get (fun _ => .corrupt) [("metallicity", "0.02")] ∧
    SimpleDatabase_get (fun _ => .absent) [("metallicity", "0.02")] =
      .error (.exception (simpledbErrorMessage [("metallicity", "0.02")])) :=
  ⟨rfl, rfl⟩

/-- Claim C6 (amended): for the SqlAlchemy-backed `Database`, a lookup whose
key combination is absent fails with a `DatabaseLookupError` whose message is
built from the identifying keys, and that error is distinct from the generic
`Exception` used elsewhere; but `SimpleDatabase.get` raises one generic
`Exception` (naming the keys) for an absent key combination and for a
corrupted store alike, so for that backend the lookup error is not distinct
from the corruption error. -/
theorem C6_lookup_errors (store : List ThemisEntry) (fstore : List FilterEntry)
    (qhac umin umax alpha : Rat) (fname : String) (dir : PickleDir)
    (primarykeys : Dict String)
    (hts : store.find? (fun e => decide (e.key = ⟨qhac, umin, umax, alpha⟩))
      = none)
    (hfs : fstore.find? (fun f => decide (f.name = fname)) = none) :
    get_themis store qhac umin umax alpha =
      .error (.databaseLookupError
        (themisLookupMessage ⟨qhac, umin, umax, alpha⟩)) ∧
    get_filter fstore fname =
      .error (.databaseLookupError
        ("The filter <" ++ fname ++ "> is not in the database")) ∧
    (∀ m₁ m₂, PyError.databaseLookupError m₁ ≠ PyError.exception m₂) ∧
    (dir (simpledb_basename primarykeys) = .absent →
      SimpleDatabase_get dir primarykeys =
        .error (.exception (simpledbErrorMessage primarykeys))) ∧
    (dir (simpledb_basename primarykeys) = .corrupt →
      SimpleDatabase_get dir primarykeys =
        .error (.exception (simpledbErrorMessage primarykeys))) := by
  refine ⟨?_, ?_, ?_, ?_, ?_⟩
  · simp [get_themis, hts]
  · simp [get_filter, hfs]
  · intro m₁ m₂ h
    exact PyError.noConfusion h
  · intro h
    simp [SimpleDatabase_get, h]
  · intro h
    simp [SimpleDatabase_get, h]

/-- Witness for C6 (amended) on empty stores and an absent pickle file. -/
theorem C6_lookup_errors_witness :
    get_themis [] 1 2 3 4 =
      .error (.databaseLookupError (themisLookupMessage ⟨1, 2, 3, 4⟩)) ∧
    SimpleDatabase_get (fun _ => .absent) [("imf", "salp")] =
      .error (.exception (simpledbErrorMessage [("imf", "salp")])) := by
  have h := C6_lookup_errors [] [] 1 2 3 4 "FUV" (fun _ => .absent)
    [("imf", "salp")] rfl rfl
  exact ⟨h.1, h.2.2.2.1 rfl⟩

/-- Counterexample for C7: with table `{FUV: [1]}`, used columns
`[FUV, FUV_err]` and filter list `[FUV]`, the error column `FUV_err` is named
in the used column list but absent from the table, and `complete_obs_table`
does not silently return a completed table: it fails with the `KeyError`
raised when the missing column is read. -/
theorem C7_counterexample :
    complete_obs_table (fun q => q) c7Table ["FUV", "FUV_err"] ["FUV"] 0 0 0 =
      .error (.keyErrorColumn "FUV_err") := by
  decide

/-- Claim C7 (amended): an error column named in the used column list but
absent from the observation table is indeed not warned about (the source has
no warning, only a deferred TODO), but `complete_obs_table` does not return a
completed table either: reading the missing column raises a `KeyError` that
aborts the completion. -/
theorem C7_complete_obs_table (sqrtFn : Rat → Rat) (used_columns : List String)
    (t : ObsTable) (name : String) (rest : List String) (tol de sd : Rat)
    (hname : name ∈ colnames t)
    (hused : name ++ "_err" ∈ used_columns)
    (habs : name ++ "_err" ∉ colnames t) :
    complete_obs_table sqrtFn t used_columns (name :: rest) tol de sd =
      .error (.keyErrorColumn (name ++ "_err")) := by
  obtain ⟨c, hc⟩ : ∃ c, lookupKey name t = some c := by
    have hs := (lookupKey_isSome_iff t name).mpr hname
    exact Option.isSome_iff_exists.mp hs
  have herr : lookupKey (name ++ "_err") t = none := by
    rcases h : lookupKey (name ++ "_err") t with _ | c2
    · rfl
    · exact absurd ((lookupKey_isSome_iff t _).mp (by simp [h])) habs
  simp [complete_obs_table, complete_obs_table_step, hname, hused, getCol,
    hc, herr, Bind.bind, Except.bind, Pure.pure, Except.pure]

/-- Witness for C7 (amended) on a two-row table missing its `NUV_err`
column. -/
theorem C7_complete_obs_table_witness :
    complete_obs_table (fun q => q) c7Table2 ["NUV", "NUV_err"] ["NUV"] 0 0 0 =
      .error (.keyErrorColumn ("NUV" ++ "_err")) :=
  C7_complete_obs_table (fun q => q) ["NUV", "NUV_err"] c7Table2 "NUV" [] 0 0 0
    (by decide) (by decide) (by decide)

theorem alookup_cons_self {κ α : Type} [DecidableEq κ] (k : κ) (v : α)
    (c : List (κ × α)) : alookup k ((k, v) :: c) = some v := by
  simp [alookup]

theorem alookup_cons_ne {κ α : Type} [DecidableEq κ] {k j : κ} (v : α)
    (c : List (κ × α)) (h : j ≠ k) : alookup k ((j, v) :: c) = alookup k c := by
  simp [alookup, h]

theorem alookup_mem {κ α : Type} [DecidableEq κ] {k : κ} {s : α}
    {c : List (κ × α)} (h : alookup k c = some s) : (k, s) ∈ c := by
  induction c with
  | nil => simp [alookup] at h
  | cons hd tl ih =>
    obtain ⟨a, b⟩ := hd
    by_cases hk : a = k
    · subst hk
      simp [alookup] at h
      subst h
      exact List.mem_cons_self _ _
    · rw [alookup_cons_ne b tl hk] at h
      exact List.mem_cons_of_mem _ (ih h)

theorem alookup_cons_none {κ α : Type} [DecidableEq κ] {k j : κ} {v : α}
    {c : List (κ × α)} (h : alookup k ((j, v) :: c) = none) :
    alookup k c = none := by
  by_cases hj : j = k
  · subst hj; rw [alookup_cons_self] at h; cases h
  · rwa [alookup_cons_ne v c hj] at h

/-- The walk invariant of the spec-modelled warehouse: existing entries are
untouched, every prefix key of the walked suffix ends up cached, the final
SED sits in the cache under the full key, the invocation log is
duplicate-free, only previously-uncached keys are invoked, every invoked key
ends up cached, and the cache grows by exactly the invoked keys. -/
theorem get_sed_walk_inv {SED : Type} (process : Stage → SED → SED) :
    ∀ (rest : List Stage) (c : Cache SED) (pre : CacheKey) (sed : SED),
      (∀ k, (alookup k c).isSome = true →
        alookup k (get_sed_walk process c pre sed rest).2.1 = alookup k c) ∧
      (∀ i, i < rest.length →
        (alookup (pre ++ rest.take (i+1))
          (get_sed_walk process c pre sed rest).2.1).isSome = true) ∧
      (rest ≠ [] →
        alookup (pre ++ rest) (get_sed_walk process c pre sed rest).2.1 =
          some (get_sed_walk process c pre sed rest).1) ∧
      (get_sed_walk process c pre sed rest).2.2.Nodup ∧
      (∀ k, k ∈ (get_sed_walk process c pre sed rest).2.2 →
        alookup k c = none) ∧
      (∀ k, k ∈ (get_sed_walk process c pre sed rest).2.2 →
        (alookup k (get_sed_walk process c pre sed rest).2.1).isSome = true) ∧
      (∀ k, (alookup k (get_sed_walk process c pre sed rest).2.1).isSome = true →
        (alookup k c).isSome = true ∨
          k ∈ (get_sed_walk process c pre sed rest).2.2) := by
  intro rest
  induction rest with
  | nil =>
    intro c pre sed
    simp [get_sed_walk]
  | cons st rest ih =>
    intro c pre sed
    rcases hk : alookup (pre ++ [st]) c with _ | snap
    · -- cache miss: process runs and the snapshot is stored
      obtain ⟨ih1, ih2, ih3, ih4, ih5, ih6, ih7⟩ :=
        ih ((pre ++ [st], process st sed) :: c) (pre ++ [st]) (process st sed)
      simp only [get_sed_walk, hk]
      refine ⟨?_, ?_, ?_, ?_, ?_, ?_, ?_⟩
      · intro k hks
        have hkne : pre ++ [st] ≠ k := by
          intro he; rw [← he, hk] at hks; cases hks
        have hcons : alookup k ((pre ++ [st], process st sed) :: c) =
            alookup k c := alookup_cons_ne _ _ hkne
        rw [ih1 k (by rw [hcons]; exact hks), hcons]
      · intro i hi
        cases i with
        | zero =>
          simp only [List.take_succ_cons, List.take_zero]
          have hs := ih1 (pre ++ [st]) (by rw [alookup_cons_self]; rfl)
          rw [hs, alookup_cons_self]; rfl
        | succ n =>
          have hn : n < rest.length := by simpa using hi
          have := ih2 n hn
          simpa [List.append_assoc] using this
      · intro _
        by_cases hrest : rest = []
        · subst hrest
          simp only [get_sed_walk]
          simpa using alookup_cons_self (pre ++ [st]) (process st sed) c
        · have := ih3 hrest
          simpa [List.append_assoc] using this
      · refine List.Nodup.cons ?_ ih4
        intro hmem
        have := ih5 _ hmem
        rw [alookup_cons_self] at this; cases this
      · intro k hkmem
        rcases List.mem_cons.mp hkmem with hkh | hkt
        · rw [hkh]; exact hk
        · exact alookup_cons_none (ih5 k hkt)
      · intro k hkmem
        rcases List.mem_cons.mp hkmem with hkh | hkt
        · rw [hkh,
            ih1 (pre ++ [st]) (by rw [alookup_cons_self]; rfl),
            alookup_cons_self]
          rfl
        · exact ih6 k hkt
      · intro k hks
        rcases ih7 k hks with hsome | hmem
        · by_cases hke : pre ++ [st] = k
          · exact Or.inr (hke ▸ List.mem_cons_self _ _)
          · rw [alookup_cons_ne _ _ hke] at hsome
            exact Or.inl hsome
        · exact Or.inr (List.mem_cons_of_mem _ hmem)
    · -- cache hit: the stored snapshot is reused, no invocation
      obtain ⟨ih1, ih2, ih3, ih4, ih5, ih6, ih7⟩ := ih c (pre ++ [st]) snap
      simp only [get_sed_walk, hk]
      refine ⟨ih1, ?_, ?_, ih4, ih5, ih6, ih7⟩
      · intro i hi
        cases i with
        | zero =>
          simp only [List.take_succ_cons, List.take_zero]
          rw [ih1 (pre ++ [st]) (by rw [hk]; rfl), hk]; rfl
        | succ n =>
          have hn : n < rest.length := by simpa using hi
          have := ih2 n hn
          simpa [List.append_assoc] using this
      · intro _
        by_cases hrest : rest = []
        · subst hrest
          simpa [get_sed_walk] using hk
        · have := ih3 hrest
          simpa [List.append_assoc] using this

/-- When every prefix key of the walked suffix is already cached, the walk
changes nothing, invokes nothing, and returns the cached SED of the full
key. -/
theorem get_sed_walk_all_hits {SED : Type} (process : Stage → SED → SED) :
    ∀ (rest : List Stage) (c : Cache SED) (pre : CacheKey) (sed : SED),
      (∀ i, i < rest.length →
        (alookup (pre ++ rest.take (i+1)) c).isSome = true) →
      (get_sed_walk process c pre sed rest).2.1 = c ∧
      (get_sed_walk process c pre sed rest).2.2 = [] ∧
      (rest ≠ [] → alookup (pre ++ rest) c =
        some (get_sed_walk process c pre sed rest).1) := by
  intro rest
  induction rest with
  | nil =>
    intro c pre sed _
    simp [get_sed_walk]
  | cons st rest ih =>
    intro c pre sed h
    have h0 : (alookup (pre ++ [st]) c).isSome = true := by
      have := h 0 (by simp)
      simpa using this
    rcases hk : alookup (pre ++ [st]) c with _ | snap
    · rw [hk] at h0; cases h0
    · simp only [get_sed_walk, hk]
      have hrec := ih c (pre ++ [st]) snap (by
        intro i hi
        have := h (i+1) (by simpa using hi)
        simpa [List.append_assoc] using this)
      refine ⟨hrec.1, hrec.2.1, ?_⟩
      intro _
      by_cases hrest : rest = []
      · subst hrest
        simpa [get_sed_walk] using hk
      · have := hrec.2.2 hrest
        simpa [List.append_assoc] using this

/-- Requests against one worker's cache: the concatenated invocation log is
duplicate-free and only ever contains keys that were not cached when the
request sequence started. -/
theorem run_requests_inv {SED : Type} (process : Stage → SED → SED)
    (newSED : SED) :
    ∀ (reqs : List (List String × List ParamDict)) (w : Cache SED),
      (run_requests process newSED w reqs).2.Nodup ∧
      (∀ k, k ∈ (run_requests process newSED w reqs).2 →
        alookup k w = none) := by
  intro reqs
  induction reqs with
  | nil => intro w; simp [run_requests]
  | cons mp rest ih =>
    intro w
    obtain ⟨i1, _, _, i4, i5, i6, _⟩ :=
      get_sed_walk_inv process (mkPipeline mp.1 mp.2) w [] newSED
    obtain ⟨ihn, ihf⟩ :=
      ih (get_sed_walk process w [] newSED (mkPipeline mp.1 mp.2)).2.1
    simp only [run_requests, get_sed]
    constructor
    · rw [List.nodup_append]
      refine ⟨i4, ihn, ?_⟩
      intro k hk1 hk2
      have h1 := i6 k hk1
      rw [ihf k hk2] at h1
      cases h1
    · intro k hkmem
      rcases List.mem_append.mp hkmem with hkl | hkr
      · exact i5 k hkl
      · rcases hkw : alookup k w with _ | v
        · rfl
        · have hpres := i1 k (by rw [hkw]; rfl)
          rw [ihf k hkr, hkw] at hpres
          cases hpres

/-- Claim C2: within one worker, `get_sed` is idempotent — requesting the
same pipeline a second time without intervening invalidation returns the
identical SED value, leaves the cache unchanged, and invokes no module's
`process` — and, for any sequence of requests without intervening
invalidation, `process` runs at most once per distinct cache key (the
concatenated invocation log is duplicate-free and disjoint from the keys
already cached at the start). -/
theorem C2_get_sed_memo {SED : Type} (process : Stage → SED → SED)
    (newSED : SED) (w : Cache SED) (modules : List String)
    (parameters : List ParamDict)
    (reqs : List (List String × List ParamDict)) :
    ((get_sed process newSED
        (get_sed process newSED w modules parameters).2.1
        modules parameters).1 =
      (get_sed process newSED w modules parameters).1 ∧
     (get_sed process newSED
        (get_sed process newSED w modules parameters).2.1
        modules parameters).2.1 =
      (get_sed process newSED w modules parameters).2.1 ∧
     (get_sed process newSED
        (get_sed process newSED w modules parameters).2.1
        modules parameters).2.2 = []) ∧
    (run_requests process newSED w reqs).2.Nodup ∧
    (∀ k, k ∈ (run_requests process newSED w reqs).2 →
      alookup k w = none) := by
  refine ⟨?_, (run_requests_inv process newSED reqs w).1,
    (run_requests_inv process newSED reqs w).2⟩
  by_cases hp : mkPipeline modules parameters = []
  · simp [get_sed, hp, get_sed_walk]
  · obtain ⟨_, i2, i3, _, _, _, _⟩ :=
      get_sed_walk_inv process (mkPipeline modules parameters) w [] newSED
    have hhits := get_sed_walk_all_hits process (mkPipeline modules parameters)
      (get_sed_walk process w [] newSED (mkPipeline modules parameters)).2.1
      [] newSED (by
        intro i hi
        exact i2 i hi)
    have hfull := hhits.2.2 hp
    rw [i3 hp] at hfull
    simp only [get_sed]
    exact ⟨(Option.some.injEq _ _).mp hfull.symm, hhits.1, hhits.2.1⟩

/-- Counterexample for C3: in `_worker_sed` the `partial_clear_cache` call
runs immediately after the SED is obtained and before the output row is
produced; in the event trace of a concrete call the cache clear sits at
index 1 and the row production at index 2, refuting the claimed "only after
the output row has been produced". -/
theorem C3_counterexample :
    (worker_sed (fun _ s => s) () (fun _ _ => 0) [] [] ["m2005"]
      [[("imf", PValue.str "salp")]] 0).2.2 =
      [.sedBuilt, .cacheCleared 0, .rowProduced] ∧
    ¬ ClearAfterRow
      (worker_sed (fun _ s => s) () (fun _ _ => 0) [] [] ["m2005"]
        [[("imf", PValue.str "salp")]] 0).2.2 0 := by
  refine ⟨rfl, ?_⟩
  intro h
  have := h 1 2 rfl rfl
  omega

/-- Claim C3 (amended): for every grid point the worker calls
`partial_clear_cache` with that grid point's changed-at index after the SED
is built and before the row is produced — hence before the next grid point
is processed; the worker's resulting cache is exactly the built cache pruned
at the changed-at index, and the row is assembled from the returned SED, not
from the cache, so the pruning cannot affect it. -/
theorem C3_worker_events {SED : Type} (process : Stage → SED → SED)
    (newSED : SED) (compute_fnu : SED → PFilter → Rat) (w : Cache SED)
    (filters : List PFilter) (modules : List String)
    (parameters : List ParamDict) (changed : Nat) :
    (worker_sed process newSED compute_fnu w filters modules parameters
        changed).2.2 =
      [.sedBuilt, .cacheCleared changed, .rowProduced] ∧
    (worker_sed process newSED compute_fnu w filters modules parameters
        changed).2.1 =
      partial_clear_cache
        (get_sed process newSED w modules parameters).2.1 changed :=
  ⟨rfl, rfl⟩

theorem foldl_append_eq_flatten {α β : Type} (f : α → List β) :
    ∀ (l : List α) (init : List β),
      l.foldl (fun r x => r ++ f x) init = init ++ (l.map f).flatten := by
  intro l
  induction l with
  | nil => intro init; simp
  | cons hd tl ih => intro init; simp [ih, List.append_assoc]

/-- Claim C5: the emitted row is exactly the concatenation of the grid
point's parameter values — module by module in pipeline order, each module's
parameters in dictionary order, list values joined into one string —
followed by one computed flux per requested filter of the built SED; and the
output table's column names are the dotted `module.parameter` names of the
pipeline followed by the filter names. -/
theorem C5_row_and_columns {SED : Type} (process : Stage → SED → SED)
    (newSED : SED) (compute_fnu : SED → PFilter → Rat) (w : Cache SED)
    (filters : List PFilter) (modules : List String)
    (parameters : List ParamDict) (changed : Nat)
    (creation_modules : List String) (first_params : List ParamDict)
    (filter_names : List String) :
    (worker_sed process newSED compute_fnu w filters modules parameters
        changed).1 =
      (parameters.map fun mp =>
        mp.map fun kv => Cell.val (joinIfList kv.2)).flatten
        ++ filters.map (fun f => Cell.flux
            (compute_fnu (get_sed process newSED w modules parameters).1 f)) ∧
    out_columns creation_modules first_params filter_names =
      ((creation_modules.zip first_params).map fun mp =>
        mp.2.map fun kv => mp.1 ++ "." ++ kv.1).flatten ++ filter_names := by
  constructor
  · simp [worker_sed,
      foldl_append_eq_flatten
        (fun mp : ParamDict => mp.map fun kv => Cell.val (joinIfList kv.2))
        parameters []]
  · simp [out_columns,
      foldl_append_eq_flatten
        (fun mp : String × ParamDict => mp.2.map fun kv => mp.1 ++ "." ++ kv.1)
        (creation_modules.zip first_params) []]

theorem evalPipeline_concat {SED : Type} (process : Stage → SED → SED)
    (newSED : SED) (a : Pipeline) (st : Stage) :
    evalPipeline process newSED (a ++ [st]) =
      process st (evalPipeline process newSED a) := by
  simp [evalPipeline, List.foldl_append]

/-- Under a valid cache, the walk returns the uncached meaning of the full
pipeline and leaves the cache valid. -/
theorem get_sed_walk_eval {SED : Type} (process : Stage → SED → SED)
    (newSED : SED) :
    ∀ (rest : List Stage) (c : Cache SED) (pre : CacheKey) (sed : SED),
      ValidCache process newSED c →
      sed = evalPipeline process newSED pre →
      (get_sed_walk process c pre sed rest).1 =
        evalPipeline process newSED (pre ++ rest) ∧
      ValidCache process newSED
        (get_sed_walk process c pre sed rest).2.1 := by
  intro rest
  induction rest with
  | nil =>
    intro c pre sed hv hsed
    constructor
    · simpa [get_sed_walk] using hsed
    · simpa [get_sed_walk] using hv
  | cons st rest ih =>
    intro c pre sed hv hsed
    have happ : (pre ++ [st]) ++ rest = pre ++ st :: rest := by simp
    rcases hk : alookup (pre ++ [st]) c with _ | snap
    · have hsnap : process st sed =
          evalPipeline process newSED (pre ++ [st]) := by
        rw [hsed, evalPipeline_concat]
      have hv' : ValidCache process newSED
          ((pre ++ [st], process st sed) :: c) := by
        intro kv hkv
        rcases List.mem_cons.mp hkv with he | hm
        · rw [he]; exact hsnap
        · exact hv kv hm
      obtain ⟨e1, e2⟩ := ih ((pre ++ [st], process st sed) :: c)
        (pre ++ [st]) (process st sed) hv' hsnap
      simp only [get_sed_walk, hk]
      exact ⟨by rw [e1, happ], e2⟩
    · have hsnap : snap = evalPipeline process newSED (pre ++ [st]) :=
        hv _ (alookup_mem hk)
      obtain ⟨e1, e2⟩ := ih c (pre ++ [st]) snap hv hsnap
      simp only [get_sed_walk, hk]
      exact ⟨by rw [e1, happ], e2⟩

theorem ValidCache_clear {SED : Type} (process : Stage → SED → SED)
    (newSED : SED) (c : Cache SED) (changed : Nat)
    (hv : ValidCache process newSED c) :
    ValidCache process newSED (partial_clear_cache c changed) := by
  intro kv hkv
  exact hv kv (List.mem_filter.mp hkv).1

/-- Under a valid cache a worker's row is the cache-independent row of its
grid point, and its cache stays valid. -/
theorem worker_sed_pure {SED : Type} (process : Stage → SED → SED)
    (newSED : SED) (compute_fnu : SED → PFilter → Rat) (w : Cache SED)
    (filters : List PFilter) (modules : List String)
    (parameters : List ParamDict) (changed : Nat)
    (hv : ValidCache process newSED w) :
    (worker_sed process newSED compute_fnu w filters modules parameters
        changed).1 =
      pureRow process newSED compute_fnu filters modules parameters ∧
    ValidCache process newSED
      (worker_sed process newSED compute_fnu w filters modules parameters
        changed).2.1 := by
  obtain ⟨e1, e2⟩ := get_sed_walk_eval process newSED
    (mkPipeline modules parameters) w [] newSED hv rfl
  constructor
  · simp only [worker_sed, get_sed, pureRow]
    rw [e1,
      foldl_append_eq_flatten
        (fun mp : ParamDict => mp.map fun kv => Cell.val (joinIfList kv.2))
        parameters []]
    simp
  · simp only [worker_sed, get_sed]
    exact ValidCache_clear process newSED _ changed e2

theorem run_worker_pure {SED : Type} (process : Stage → SED → SED)
    (newSED : SED) (compute_fnu : SED → PFilter → Rat)
    (filters : List PFilter) (modules : List String) :
    ∀ (tasks : List (List ParamDict × Nat)) (w : Cache SED),
      ValidCache process newSED w →
      run_worker process newSED compute_fnu filters modules w tasks =
        tasks.map fun t =>
          pureRow process newSED compute_fnu filters modules t.1 := by
  intro tasks
  induction tasks with
  | nil => intro w _; simp [run_worker]
  | cons t rest ih =>
    intro w hv
    obtain ⟨h1, h2⟩ := worker_sed_pure process newSED compute_fnu w filters
      modules t.1 t.2 hv
    simp only [run_worker, List.map_cons]
    rw [h1, ih _ h2]

/-- The pool's output only depends on the grid, never on the dispatch:
position i always holds grid point i's cache-independent row. -/
theorem pool_rows_pure {SED : Type} (process : Stage → SED → SED)
    (newSED : SED) (compute_fnu : SED → PFilter → Rat)
    (filters : List PFilter) (modules : List String)
    (points : List (List ParamDict)) (changed : List Nat)
    (assign : Nat → Nat) :
    pool_rows process newSED compute_fnu filters modules points changed
        assign =
      (List.range points.length).map fun i =>
        pureRow process newSED compute_fnu filters modules
          (points.getD i []) := by
  unfold pool_rows
  apply List.map_congr_left
  intro i hi
  have hvempty : ValidCache process newSED ([] : Cache SED) := by
    intro kv hkv; cases hkv
  dsimp only
  rw [run_worker_pure process newSED compute_fnu filters modules _ _ hvempty]
  rw [List.map_map]
  have hmem : i ∈ worker_tasks assign points.length (assign i) := by
    simp only [worker_tasks, List.mem_filter, decide_eq_true_eq]
    exact ⟨hi, trivial⟩
  rw [List.getD_eq_getElem?_getD, List.getElem?_map,
    List.getElem?_indexOf hmem]
  rfl

/-- Claim C4: for every grid, the pool produces the identical ordered row
sequence regardless of how grid points are dispatched to workers — in
particular, running with one worker equals running with any number of
workers — and the row at position i is always grid point i's row. -/
theorem C4_pool_determinism {SED : Type} (process : Stage → SED → SED)
    (newSED : SED) (compute_fnu : SED → PFilter → Rat)
    (filters : List PFilter) (modules : List String)
    (points : List (List ParamDict)) (changed : List Nat)
    (assign : Nat → Nat) :
    pool_rows process newSED compute_fnu filters modules points changed
        assign =
      pool_rows process newSED compute_fnu filters modules points changed
        (fun _ => 0) ∧
    pool_rows process newSED compute_fnu filters modules points changed
        assign =
      (List.range points.length).map fun i =>
        pureRow process newSED compute_fnu filters modules
          (points.getD i []) := by
  refine ⟨?_, pool_rows_pure process newSED compute_fnu filters modules
    points changed assign⟩
  rw [pool_rows_pure process newSED compute_fnu filters modules points
    changed assign,
    pool_rows_pure process newSED compute_fnu filters modules points
    changed (fun _ => 0)]

end Cigale
